import Mathlib

/-!
Verification of the credential-probing device-configuration extractor
(`device_config_extractor.py`).

The development shallowly embeds the pure core of the program:

* the text utilities used by the script (Python `str.splitlines`,
  `str.strip`, substring tests, the few fixed regular expressions);
* the output parsers `parse_identity` and `parse_wireless`;
* the credential prober `try_credentials`, with the network modelled as an
  oracle assigning to every (credential, command) pair the outcome of the
  corresponding `ssh_run` call (normal result text, an authentication
  rejection, or any other transport/execution failure);
* the per-address orchestrator `process_ip` and the order-preserving
  collection performed by `main` over the thread pool (`runAll`);
* an observation layer recording which (credential, command) pairs are
  handed to the session client (`process_calls`).

Wall-clock measurements (the `seconds` field of a result row) are not
modelled.  All definitions are executable and follow the Python source
line by line.
-/

namespace ISPRecon

/-! ## Python character classes -/

/-- Whitespace for Python `str.strip()` and the regex class `\s`
(ASCII whitespace together with the common Unicode members NEL and NBSP). -/
def pyIsSpace (c : Char) : Bool :=
  c = ' ' || c = '\t' || c = '\n' || c = '\r' || c = '\x0b' || c = '\x0c' ||
  c = '\x1c' || c = '\x1d' || c = '\x1e' || c = '\x1f' || c = '\x85' || c = '\xa0'

/-- Line boundaries recognised by Python `str.splitlines` (besides `"\r\n"`,
which is treated as a single boundary). -/
def isLineBreak (c : Char) : Bool :=
  c = '\n' || c = '\r' || c = '\x0b' || c = '\x0c' ||
  c = '\x1c' || c = '\x1d' || c = '\x1e' || c = '\x85' ||
  c = ' ' || c = ' '

/-! ## splitlines -/

/-- Core loop of Python `str.splitlines`: accumulates the current line in
reverse in `cur`; `afterCr` records that the previous character was a lone
`'\r'`, so that a directly following `'\n'` is consumed as part of the same
`"\r\n"` boundary; a trailing segment is emitted only if non-empty. -/
def splitlinesGo : List Char → Bool → List Char → List (List Char)
  | [], _, cur => if cur.isEmpty then [] else [cur.reverse]
  | c :: rest, afterCr, cur =>
    if afterCr && c = '\n' then splitlinesGo rest false cur
    else if c = '\r' then cur.reverse :: splitlinesGo rest true []
    else if isLineBreak c then cur.reverse :: splitlinesGo rest false []
    else splitlinesGo rest false (c :: cur)

/-- Python `str.splitlines`. -/
def splitlines (s : String) : List String :=
  (splitlinesGo s.data false []).map fun l => ⟨l⟩

/-! ## Substring search and stripping -/

/-- Removes `pat` from the front of `s`, if it is there. -/
def dropPre : List Char → List Char → Option (List Char)
  | [], s => some s
  | _, [] => none
  | p :: ps, c :: cs => if p = c then dropPre ps cs else none

/-- Suffix of `s` after the first occurrence of `pat`
(Python `s.split(pat, 1)[1]`, defined when `pat in s`). -/
def afterFirst (pat : List Char) : List Char → Option (List Char)
  | [] => if pat.isEmpty then some [] else none
  | s@(_ :: rest) =>
    match dropPre pat s with
    | some r => some r
    | none => afterFirst pat rest

/-- Python `pat in s`. -/
def containsSub (pat s : List Char) : Bool :=
  (afterFirst pat s).isSome

/-- Python `str.strip()` (no argument: strips whitespace from both ends). -/
def pyStrip (s : String) : String :=
  ⟨((s.data.dropWhile pyIsSpace).reverse.dropWhile pyIsSpace).reverse⟩

/-- Python `str.strip('"')`: strips every leading and trailing `"`. -/
def stripQuotes (s : String) : String :=
  ⟨((s.data.dropWhile (· = '"')).reverse.dropWhile (· = '"')).reverse⟩

/-! ## Lexicographic string order (Python string comparison) -/

/-- Lexicographic comparison of character lists by code point,
the order Python `sorted` uses on strings. -/
def lexLe : List Char → List Char → Bool
  | [], _ => true
  | _ :: _, [] => false
  | a :: as, b :: bs =>
    if a.toNat < b.toNat then true
    else if b.toNat < a.toNat then false
    else lexLe as bs

/-- Python `<=` on strings. -/
def strLe (a b : String) : Bool :=
  lexLe a.data b.data

/-- Python `sorted` on a list of strings. -/
def sortStr (l : List String) : List String :=
  List.insertionSort (fun a b => strLe a b = true) l

/-- Python `';'.join`. -/
def joinSemicolons : List String → String
  | [] => ""
  | [s] => s
  | s :: rest => s ++ ";" ++ joinSemicolons rest

/-- Insertion into a Python `set`, modelled as a duplicate-free list in
insertion order. -/
def insertIfNew (l : List String) (x : String) : List String :=
  if x ∈ l then l else l ++ [x]

/-! ## The fixed regular expressions of the script -/

/-- Match of `set\s+name=([^\s]+)` anchored at the current position:
literal `set`, at least one whitespace, literal `name=`, then the maximal
non-empty run of non-whitespace characters (the captured group). -/
def matchSetNameAt (s : List Char) : Option (List Char) :=
  match dropPre ['s', 'e', 't'] s with
  | none => none
  | some r1 =>
    let sp := r1.takeWhile pyIsSpace
    let r2 := r1.dropWhile pyIsSpace
    if sp.isEmpty then none
    else
      match dropPre ['n', 'a', 'm', 'e', '='] r2 with
      | none => none
      | some r3 =>
        let tok := r3.takeWhile fun c => !pyIsSpace c
        if tok.isEmpty then none else some tok

/-- Leftmost match of `re.search(r'set\s+name=([^\s]+)', raw)`,
returning the captured group. -/
def findSetName : List Char → Option (List Char)
  | [] => none
  | s@(_ :: rest) =>
    match matchSetNameAt s with
    | some tok => some tok
    | none => findSetName rest

/-- Match of `key"?([^"\s]+)"?` anchored at the current position: the literal
key, an optional opening quote, then the maximal non-empty run of characters
that are neither `"` nor whitespace (the captured group; the trailing
optional quote never constrains the match). -/
def keyTokRun (r1 : List Char) : List Char :=
  (match r1 with
    | '"' :: r => r
    | _ => r1).takeWhile fun c => !(c = '"') && !pyIsSpace c

def matchKeyTokAt (key s : List Char) : Option (List Char) :=
  match dropPre key s with
  | none => none
  | some r1 => if (keyTokRun r1).isEmpty then none else some (keyTokRun r1)

/-- Leftmost match of `re.search(key + r'"?([^"\s]+)"?', line)`,
returning the captured group. -/
def findKeyTok (key : List Char) : List Char → Option (List Char)
  | [] => none
  | s@(_ :: rest) =>
    match matchKeyTokAt key s with
    | some tok => some tok
    | none => findKeyTok key rest

/-! ## Output parsers -/

/-- Loop body of `parse_identity`: return the stripped remainder of the first
line containing `name:`; after the loop, fall back to the
`set\s+name=([^\s]+)` search over the whole text, stripping quotes. -/
def identityFromLines (raw : String) : List String → String
  | [] =>
    match findSetName raw.data with
    | some tok => stripQuotes (pyStrip ⟨tok⟩)
    | none => ""
  | l :: ls =>
    if containsSub "name:".data l.data then
      pyStrip ⟨(afterFirst "name:".data l.data).getD []⟩
    else identityFromLines raw ls

/-- Embedding of `parse_identity` (`device_config_extractor.py`, lines 112-121). -/
def parse_identity (raw : String) : String :=
  identityFromLines raw (splitlines raw)

/-- Per-line token extraction of `parse_wireless`: the `key in line` guard
followed by the regex search. -/
def lineTok (key : String) (l : String) : Option String :=
  if containsSub key.data l.data then
    (findKeyTok key.data l.data).map fun t => (⟨t⟩ : String)
  else none

/-- One iteration of the `parse_wireless` loop over a line, updating the
ssid and radio-name sets. -/
def wirelessStep (st : List String × List String) (l : String) :
    List String × List String :=
  let s1 := match lineTok "ssid=" l with
    | some t => insertIfNew st.1 t
    | none => st.1
  let s2 := match lineTok "radio-name=" l with
    | some t => insertIfNew st.2 t
    | none => st.2
  (s1, s2)

/-- Embedding of `parse_wireless` (`device_config_extractor.py`, lines
124-136): collect the ssid and radio-name tokens into sets, then serialize
each as the sorted `';'`-join. -/
def parse_wireless (raw : String) : String × String :=
  let st := (splitlines raw).foldl wirelessStep ([], [])
  (joinSemicolons (sortStr st.1), joinSemicolons (sortStr st.2))

/-! ## Network oracle and configuration -/

/-- A credential pair (username, password). -/
abbrev Cred := String × String

/-- Outcome of one `ssh_run` call: the returned text, an
`paramiko.AuthenticationException`, or any other exception
(connection/transport/execution failure) with its message. -/
inductive SshResult where
  | ok (text : String)
  | authErr (msg : String)
  | err (msg : String)
deriving DecidableEq, Repr

/-- Network oracle for one address: the outcome of `ssh_run` for each
credential and command. -/
abbrev NetC := Cred → String → SshResult

/-- `COMMAND_IDENTITY` (line 21). -/
def COMMAND_IDENTITY : String := "/system identity print"

/-- `COMMAND_WIRELESS` (line 22). -/
def COMMAND_WIRELESS : String := "/interface wireless print detail without-paging"

/-- `COMMAND_WIRELESS_ALT` (line 23). -/
def COMMAND_WIRELESS_ALT : String := "/interface wifiwave2 print detail without-paging"

/-- `COMMAND_EXPORT` (line 25). -/
def COMMAND_EXPORT : String := "/export terse"

/-- The ordered credential list `CREDENTIALS` (lines 28-33). -/
def CREDENTIALS : List Cred :=
  [("admin", "kol5ara"), ("admin", "Admin"), ("admin", "ADmin"), ("admin", "admin")]

/-! ## Session client -/

/-- Pure core of `ssh_run` (line 76): `return out if out.strip() else err` —
the standard output is returned when its `strip()` is non-empty, otherwise
the standard error content is returned. -/
def ssh_run_select (out err : String) : String :=
  if out.data.any (fun c => !pyIsSpace c) then out else err

/-! ## Credential prober -/

/-- Resolution of the wireless text after a successful identity probe
(lines 91-99): primary wireless command with failures mapped to `''`;
if the result is empty, the alternate wireless command likewise. -/
def resolveWireless (net : NetC) (c : Cred) : String :=
  let w := match net c COMMAND_WIRELESS with
    | .ok s => s
    | _ => ""
  if w = "" then
    match net c COMMAND_WIRELESS_ALT with
    | .ok s => s
    | _ => ""
  else w

/-- The loop of `try_credentials` (lines 83-109).  `le` is the function-local
`last_error` variable (`none` while unset).  Per credential: an identity
result that is empty raises `RuntimeError('Empty response')`, caught by the
generic handler, which records the message; an authentication rejection is
skipped without recording; any other failure records its message; a
non-empty identity response returns the credential together with the
gathered outputs and an empty error string.  On exhaustion the recorded
error (or the `'Auth/connection failed'` default) is returned. -/
def try_credentials_go (net : NetC) :
    List Cred → Option String → Option Cred × Option (String × String) × String
  | [], le => (none, none, le.getD "Auth/connection failed")
  | c :: rest, le =>
    match net c COMMAND_IDENTITY with
    | .ok idRaw =>
      if idRaw = "" then try_credentials_go net rest (some "Empty response")
      else (some c, some (idRaw, resolveWireless net c), "")
    | .authErr _ => try_credentials_go net rest le
    | .err m => try_credentials_go net rest (some m)

/-- Embedding of `try_credentials` (lines 81-109); the second component
models the `outputs` dict (`none` = `{}`; `some (identity, wireless)`
otherwise). -/
def try_credentials (net : NetC) (creds : List Cred) :
    Option Cred × Option (String × String) × String :=
  try_credentials_go net creds none

/-- Does the identity probe succeed for this credential
(a normal result with non-empty text)? -/
def identitySuccess (net : NetC) (c : Cred) : Bool :=
  match net c COMMAND_IDENTITY with
  | .ok s => !(s = "")
  | _ => false

/-- The identity text of a successful probe. -/
def identityText (net : NetC) (c : Cred) : String :=
  match net c COMMAND_IDENTITY with
  | .ok s => s
  | _ => ""

/-- The failure message one identity attempt records into `last_error`
(`none` when nothing is recorded: an authentication rejection, or a
success). -/
def recordOf : SshResult → Option String
  | .ok s => if s = "" then some "Empty response" else none
  | .authErr _ => none
  | .err m => some m

/-- The value of `last_error` after the whole credential loop: the most
recently recorded failure message, if any. -/
def lastRecorded (net : NetC) (creds : List Cred) : Option String :=
  creds.foldl (fun le c =>
    match recordOf (net c COMMAND_IDENTITY) with
    | some m => some m
    | none => le) none

/-! ## Per-device orchestrator -/

/-- The per-address result row built by `process_ip` (lines 144-154 and
170-180); the wall-clock `seconds` field is not modelled. -/
structure DeviceRecord where
  ip : String
  status : String
  username : String
  password : String
  system_identity : String
  ssids : String
  radio_names : String
  error : String
deriving DecidableEq, Repr

/-- Line filter of the export fallback (lines 165-167): keep the lines
containing `ssid=` or `radio-name=`, each appended after a newline. -/
def exportFilterStep (acc : String) (l : String) : String :=
  if containsSub "ssid=".data l.data || containsSub "radio-name=".data l.data then
    acc ++ "\n" ++ l
  else acc

/-- Embedding of `process_ip` (lines 139-180), generalised over the
credential list the prober iterates. -/
def process_ip_with (net : NetC) (creds : List Cred) (ip : String) : DeviceRecord :=
  match try_credentials net creds with
  | (none, _, error) =>
    { ip := ip, status := "FAIL", username := "", password := "",
      system_identity := "", ssids := "", radio_names := "", error := error }
  | (some cred, outputs, _) =>
    let identity_raw := (outputs.map Prod.fst).getD ""
    let wireless_raw0 := (outputs.map Prod.snd).getD ""
    let wireless_raw :=
      if wireless_raw0 = "" then
        let export_raw := match net cred COMMAND_EXPORT with
          | .ok s => s
          | _ => ""
        if export_raw = "" then wireless_raw0
        else (splitlines export_raw).foldl exportFilterStep wireless_raw0
      else wireless_raw0
    let parsed := parse_wireless wireless_raw
    { ip := ip, status := "OK", username := cred.1, password := cred.2,
      system_identity := parse_identity identity_raw,
      ssids := parsed.1, radio_names := parsed.2, error := "" }

/-- `process_ip` with the configured credential list. -/
def process_ip (net : NetC) (ip : String) : DeviceRecord :=
  process_ip_with net CREDENTIALS ip

/-- The collection loop of `main` (lines 236-239): `pool.map` yields exactly
one result per input address, in input order, each appended to `results`. -/
def runAll (net : String → NetC) (ips : List String) : List DeviceRecord :=
  ips.map fun ip => process_ip (net ip) ip

/-! ## Session-client call log (observation layer)

The functions below record, in order, every (credential, command) pair that
`try_credentials` / `process_ip` hands to `ssh_run`, mirroring the control
flow of the embedded definitions. -/

/-- Calls issued while resolving the wireless text (lines 91-99). -/
def wirelessCalls (net : NetC) (c : Cred) : List (Cred × String) :=
  (c, COMMAND_WIRELESS) ::
    (if (match net c COMMAND_WIRELESS with | .ok s => s | _ => "") = "" then
      [(c, COMMAND_WIRELESS_ALT)]
    else [])

/-- Calls issued by the `try_credentials` loop. -/
def try_credentials_calls (net : NetC) : List Cred → List (Cred × String)
  | [] => []
  | c :: rest =>
    (c, COMMAND_IDENTITY) ::
      (match net c COMMAND_IDENTITY with
      | .ok s =>
        if s = "" then try_credentials_calls net rest
        else wirelessCalls net c
      | _ => try_credentials_calls net rest)

/-- Calls issued by one whole `process_ip` run: the prober's calls followed
by the export fallback (line 160) when the resolved wireless text is
empty. -/
def process_calls (net : NetC) (creds : List Cred) : List (Cred × String) :=
  try_credentials_calls net creds ++
    (match try_credentials net creds with
    | (some cred, outputs, _) =>
      if (outputs.map Prod.snd).getD "" = "" then [(cred, COMMAND_EXPORT)] else []
    | _ => [])

/-! ## Helper lemmas: the lexicographic order -/

theorem charToNat_inj {a b : Char} (h : a.toNat = b.toNat) : a = b :=
  Char.eq_of_val_eq (UInt32.ext h)

theorem lexLe_total : ∀ a b : List Char, lexLe a b = true ∨ lexLe b a = true
  | [], _ => Or.inl rfl
  | _ :: _, [] => Or.inr rfl
  | a :: as, b :: bs => by
    rcases Nat.lt_trichotomy a.toNat b.toNat with h | h | h
    · left
      simp [lexLe, h]
    · have h2 : ¬ a.toNat < b.toNat := by omega
      have h3 : ¬ b.toNat < a.toNat := by omega
      rcases lexLe_total as bs with ih | ih
      · left
        simp [lexLe, h2, h3, ih]
      · right
        simp [lexLe, h2, h3, ih]
    · right
      simp [lexLe, h]

theorem lexLe_trans :
    ∀ a b c : List Char, lexLe a b = true → lexLe b c = true → lexLe a c = true
  | [], _, _, _, _ => rfl
  | _ :: _, [], _, hab, _ => by simp [lexLe] at hab
  | _ :: _, _ :: _, [], _, hbc => by simp [lexLe] at hbc
  | a :: as, b :: bs, c :: cs, hab, hbc => by
    simp only [lexLe] at hab hbc ⊢
    by_cases h1 : a.toNat < b.toNat <;> by_cases h2 : b.toNat < c.toNat
    · simp [Nat.lt_trans h1 h2]
    · rw [if_neg h2] at hbc
      by_cases h3 : c.toNat < b.toNat
      · rw [if_pos h3] at hbc
        exact absurd hbc Bool.false_ne_true
      · simp [show a.toNat < c.toNat by omega]
    · rw [if_neg h1] at hab
      by_cases h3 : b.toNat < a.toNat
      · rw [if_pos h3] at hab
        exact absurd hab Bool.false_ne_true
      · simp [show a.toNat < c.toNat by omega]
    · rw [if_neg h1] at hab
      rw [if_neg h2] at hbc
      by_cases h3 : b.toNat < a.toNat
      · rw [if_pos h3] at hab
        exact absurd hab Bool.false_ne_true
      by_cases h4 : c.toNat < b.toNat
      · rw [if_pos h4] at hbc
        exact absurd hbc Bool.false_ne_true
      rw [if_neg h3] at hab
      rw [if_neg h4] at hbc
      rw [if_neg (show ¬ a.toNat < c.toNat by omega),
        if_neg (show ¬ c.toNat < a.toNat by omega)]
      exact lexLe_trans as bs cs hab hbc

theorem lexLe_antisymm :
    ∀ a b : List Char, lexLe a b = true → lexLe b a = true → a = b
  | [], [], _, _ => rfl
  | _ :: _, [], hab, _ => by simp [lexLe] at hab
  | [], _ :: _, _, hba => by simp [lexLe] at hba
  | a :: as, b :: bs, hab, hba => by
    simp only [lexLe] at hab hba
    rcases Nat.lt_trichotomy a.toNat b.toNat with h | h | h
    · simp_all
      omega
    · have h2 : ¬ a.toNat < b.toNat := by omega
      have h3 : ¬ b.toNat < a.toNat := by omega
      simp only [h2, h3, if_neg, if_false] at hab hba
      have : as = bs := lexLe_antisymm as bs (by simp_all) (by simp_all)
      rw [charToNat_inj h, this]
    · simp_all
      omega

/-- The order relation `sortStr` sorts by. -/
def strLeR (a b : String) : Prop :=
  strLe a b = true

instance : DecidableRel strLeR := fun a b => by
  unfold strLeR
  infer_instance

instance : IsTotal String strLeR :=
  ⟨fun a b => lexLe_total a.data b.data⟩

instance : IsTrans String strLeR :=
  ⟨fun a b c => lexLe_trans a.data b.data c.data⟩

instance : IsAntisymm String strLeR :=
  ⟨fun a b hab hba => String.ext (lexLe_antisymm a.data b.data hab hba)⟩

theorem sortStr_eq_insertionSort (l : List String) :
    sortStr l = List.insertionSort strLeR l := rfl

theorem sortStr_sorted (l : List String) : List.Sorted strLeR (sortStr l) :=
  List.sorted_insertionSort strLeR l

theorem sortStr_perm (l : List String) : List.Perm (sortStr l) l :=
  List.perm_insertionSort strLeR l

theorem sortStr_mem {x : String} {l : List String} : x ∈ sortStr l ↔ x ∈ l :=
  (sortStr_perm l).mem_iff

/-- Two duplicate-free lists with the same members sort to the same list. -/
theorem sortStr_setext {l1 l2 : List String} (d1 : l1.Nodup) (d2 : l2.Nodup)
    (h : ∀ a, a ∈ l1 ↔ a ∈ l2) : sortStr l1 = sortStr l2 := by
  have hp : List.Perm l1 l2 := (List.perm_ext_iff_of_nodup d1 d2).mpr h
  exact List.eq_of_perm_of_sorted
    ((sortStr_perm l1).trans (hp.trans (sortStr_perm l2).symm))
    (sortStr_sorted l1) (sortStr_sorted l2)

/-! ## Helper lemmas: token collection -/

theorem insertIfNew_mem {l : List String} {t x : String} :
    x ∈ insertIfNew l t ↔ x ∈ l ∨ x = t := by
  unfold insertIfNew
  by_cases h : t ∈ l
  · rw [if_pos h]
    constructor
    · exact Or.inl
    · rintro (hx | rfl)
      · exact hx
      · exact h
  · rw [if_neg h]
    simp [List.mem_append]

theorem insertIfNew_nodup {l : List String} {t : String} (h : l.Nodup) :
    (insertIfNew l t).Nodup := by
  unfold insertIfNew
  by_cases ht : t ∈ l
  · rwa [if_pos ht]
  · rw [if_neg ht]
    simp [List.nodup_append, h, ht]

/-- The set of tokens one key collects over a list of lines, starting from
an already-collected set. -/
def collectToks (key : String) (lines : List String) (acc : List String) :
    List String :=
  lines.foldl (fun a l =>
    match lineTok key l with
    | some t => insertIfNew a t
    | none => a) acc

theorem wirelessFold_fst :
    ∀ (lines : List String) (a b : List String),
      (lines.foldl wirelessStep (a, b)).1 = collectToks "ssid=" lines a
  | [], _, _ => rfl
  | l :: ls, a, b => by
    simp only [List.foldl_cons, collectToks, wirelessStep]
    exact wirelessFold_fst ls _ _

theorem wirelessFold_snd :
    ∀ (lines : List String) (a b : List String),
      (lines.foldl wirelessStep (a, b)).2 = collectToks "radio-name=" lines b
  | [], _, _ => rfl
  | l :: ls, a, b => by
    simp only [List.foldl_cons, collectToks, wirelessStep]
    exact wirelessFold_snd ls _ _

theorem collectToks_mem {key : String} :
    ∀ {lines : List String} {acc : List String} {x : String},
      x ∈ collectToks key lines acc ↔
        x ∈ acc ∨ x ∈ lines.filterMap (lineTok key)
  | [], acc, x => by simp [collectToks]
  | l :: ls, acc, x => by
    simp only [collectToks, List.foldl_cons]
    rcases h : lineTok key l with _ | t
    · rw [show (List.foldl _ acc ls : List String) = collectToks key ls acc from rfl]
      rw [collectToks_mem, List.filterMap_cons_none h]
    · rw [show (List.foldl _ (insertIfNew acc t) ls : List String) =
        collectToks key ls (insertIfNew acc t) from rfl]
      rw [collectToks_mem, List.filterMap_cons_some h]
      rw [insertIfNew_mem]
      simp only [List.mem_cons]
      tauto

theorem collectToks_nodup {key : String} :
    ∀ {lines : List String} {acc : List String}, acc.Nodup →
      (collectToks key lines acc).Nodup
  | [], _, h => h
  | l :: ls, acc, h => by
    simp only [collectToks, List.foldl_cons]
    rcases hl : lineTok key l with _ | t
    · exact @collectToks_nodup key ls acc h
    · exact @collectToks_nodup key ls (insertIfNew acc t) (insertIfNew_nodup h)

/-- The ssid tokens of a raw text, one per matching line, in line order. -/
def ssidTokens (raw : String) : List String :=
  (splitlines raw).filterMap (lineTok "ssid=")

/-- The radio-name tokens of a raw text, one per matching line, in line
order. -/
def radioTokens (raw : String) : List String :=
  (splitlines raw).filterMap (lineTok "radio-name=")

/-- Closed form of `parse_wireless`: each component is the deduplicated,
lexicographically sorted, `';'`-joined list of the matching tokens. -/
theorem parse_wireless_eq (raw : String) :
    parse_wireless raw =
      (joinSemicolons (sortStr (ssidTokens raw).dedup),
       joinSemicolons (sortStr (radioTokens raw).dedup)) := by
  have base : parse_wireless raw =
      (joinSemicolons (sortStr ((splitlines raw).foldl wirelessStep ([], [])).1),
       joinSemicolons (sortStr ((splitlines raw).foldl wirelessStep ([], [])).2)) := rfl
  rw [base]
  have h1 : ((splitlines raw).foldl wirelessStep ([], [])).1 =
      collectToks "ssid=" (splitlines raw) [] := wirelessFold_fst _ _ _
  have h2 : ((splitlines raw).foldl wirelessStep ([], [])).2 =
      collectToks "radio-name=" (splitlines raw) [] := wirelessFold_snd _ _ _
  rw [h1, h2]
  have e1 : sortStr (collectToks "ssid=" (splitlines raw) []) =
      sortStr (ssidTokens raw).dedup := by
    apply sortStr_setext (collectToks_nodup List.nodup_nil) (List.nodup_dedup _)
    intro a
    rw [collectToks_mem, List.mem_dedup]
    simp [ssidTokens]
  have e2 : sortStr (collectToks "radio-name=" (splitlines raw) []) =
      sortStr (radioTokens raw).dedup := by
    apply sortStr_setext (collectToks_nodup List.nodup_nil) (List.nodup_dedup _)
    intro a
    rw [collectToks_mem, List.mem_dedup]
    simp [radioTokens]
  rw [e1, e2]

/-! ## Helper lemmas: splitlines round trips -/

theorem splitlinesGo_breakFree :
    ∀ (s : List Char) (af : Bool) (cur : List Char),
      (∀ c ∈ cur, isLineBreak c = false) →
      ∀ l ∈ splitlinesGo s af cur, ∀ c ∈ l, isLineBreak c = false
  | [], _, cur, hcur => by
    simp only [splitlinesGo]
    split
    · simp
    · intro l hl
      simp only [List.mem_singleton] at hl
      subst hl
      intro c hc
      exact hcur c (List.mem_reverse.mp hc)
  | a :: rest, af, cur, hcur => by
    simp only [splitlinesGo]
    by_cases h1 : (af && a = '\n') = true
    · rw [if_pos h1]
      exact splitlinesGo_breakFree rest false cur hcur
    rw [if_neg h1]
    by_cases h2 : a = '\r'
    · rw [if_pos h2]
      intro l hl
      rcases List.mem_cons.mp hl with rfl | hl
      · intro c hc
        exact hcur c (List.mem_reverse.mp hc)
      · exact splitlinesGo_breakFree rest true [] (by simp) l hl
    rw [if_neg h2]
    by_cases h3 : isLineBreak a = true
    · rw [if_pos h3]
      intro l hl
      rcases List.mem_cons.mp hl with rfl | hl
      · intro c hc
        exact hcur c (List.mem_reverse.mp hc)
      · exact splitlinesGo_breakFree rest false [] (by simp) l hl
    · rw [if_neg h3]
      apply splitlinesGo_breakFree rest false (a :: cur)
      intro c hc
      rcases List.mem_cons.mp hc with rfl | hc
      · exact Bool.not_eq_true (isLineBreak c) ▸ h3
      · exact hcur c hc

/-- Every line produced by `splitlines` is free of line-boundary
characters. -/
theorem splitlines_breakFree {raw l : String} (h : l ∈ splitlines raw) :
    ∀ c ∈ l.data, isLineBreak c = false := by
  unfold splitlines at h
  rcases List.mem_map.mp h with ⟨d, hd, rfl⟩
  exact splitlinesGo_breakFree raw.data false [] (by simp) d hd

/-- Characters free of line boundaries are absorbed into the current
line. -/
theorem splitlinesGo_append :
    ∀ (l : List Char), (∀ c ∈ l, isLineBreak c = false) →
      ∀ (r cur : List Char),
        splitlinesGo (l ++ r) false cur = splitlinesGo r false (l.reverse ++ cur)
  | [], _, r, cur => by simp
  | a :: l', hl, r, cur => by
    have ha : isLineBreak a = false := hl a (List.mem_cons_self a l')
    have ha2 : ¬ a = '\r' := by
      intro hr
      rw [hr] at ha
      simp [isLineBreak] at ha
    simp only [List.cons_append, splitlinesGo, Bool.false_and]
    rw [if_neg (by simp), if_neg ha2, if_neg (by simp [ha])]
    rw [List.reverse_cons, List.append_assoc, List.singleton_append]
    exact splitlinesGo_append l' (fun c hc => hl c (List.mem_cons_of_mem a hc)) r (a :: cur)

theorem splitlinesGo_nl (r cur : List Char) :
    splitlinesGo ('\n' :: r) false cur = cur.reverse :: splitlinesGo r false [] := by
  simp only [splitlinesGo, Bool.false_and]
  rw [if_neg (by simp), if_neg (by decide), if_pos (by decide)]

/-- The text `exportFilterStep` builds: each kept line prefixed by a
newline. -/
def nlConcat : List String → String
  | [] => ""
  | l :: ls => "\n" ++ l ++ nlConcat ls

/-- The export-fallback accumulation is the filter of the kept lines,
appended newline-first to the seed. -/
theorem exportFilter_fold :
    ∀ (lines : List String) (s : String),
      lines.foldl exportFilterStep s =
        s ++ nlConcat (lines.filter fun l =>
          containsSub "ssid=".data l.data || containsSub "radio-name=".data l.data)
  | [], s => by simp [nlConcat]
  | l :: ls, s => by
    simp only [List.foldl_cons, exportFilterStep, List.filter_cons]
    by_cases h : (containsSub "ssid=".data l.data || containsSub "radio-name=".data l.data) = true
    · rw [if_pos h, if_pos h, exportFilter_fold ls (s ++ "\n" ++ l)]
      simp only [nlConcat, String.append_assoc]
    · rw [if_neg h, if_neg h, exportFilter_fold ls s]

theorem splitlinesGo_nlConcat :
    ∀ (ls : List String), ls ≠ [] →
      (∀ l ∈ ls, l ≠ "" ∧ ∀ c ∈ l.data, isLineBreak c = false) →
      ∀ cur : List Char,
        splitlinesGo (nlConcat ls).data false cur = cur.reverse :: ls.map String.data
  | [], h, _, _ => absurd rfl h
  | l :: ls', _, hgood, cur => by
    have hdata : (nlConcat (l :: ls')).data = '\n' :: (l.data ++ (nlConcat ls').data) := by
      simp only [nlConcat]
      rw [String.data_append, String.data_append]
      rfl
    rw [hdata, splitlinesGo_nl,
      splitlinesGo_append l.data (hgood l (List.mem_cons_self l ls')).2]
    rcases ls' with _ | ⟨m, ms⟩
    · have hne : l.data ≠ [] := by
        intro h0
        exact (hgood l (List.mem_cons_self l [])).1 (String.ext h0)
      congr 1
      show splitlinesGo ("" : String).data false (l.data.reverse ++ []) = [l.data]
      simp only [List.append_nil]
      show (if (l.data.reverse).isEmpty then ([] : List (List Char))
        else [l.data.reverse.reverse]) = [l.data]
      rw [if_neg (by simpa [List.isEmpty_iff] using hne)]
      simp
    · rw [show (l.data.reverse ++ [] : List Char) = l.data.reverse from by simp,
        splitlinesGo_nlConcat (m :: ms) (by simp)
          (fun x hx => hgood x (List.mem_cons_of_mem l hx)) l.data.reverse]
      simp

/-- Splitting the newline-first concatenation of non-empty break-free lines
recovers them, preceded by one empty line for the leading newline. -/
theorem splitlines_nlConcat (ls : List String) (h0 : ls ≠ [])
    (hgood : ∀ l ∈ ls, l ≠ "" ∧ ∀ c ∈ l.data, isLineBreak c = false) :
    splitlines (nlConcat ls) = "" :: ls := by
  unfold splitlines
  rw [splitlinesGo_nlConcat ls h0 hgood []]
  simp only [List.reverse_nil, List.map_cons, List.map_map]
  have hid : ((fun d => (⟨d⟩ : String)) ∘ String.data) = id := funext fun _ => rfl
  rw [hid, List.map_id]

/-! ## Helper lemmas: tokens and joins -/

theorem matchKeyTokAt_ne_nil {key s t : List Char}
    (h : matchKeyTokAt key s = some t) : t ≠ [] := by
  unfold matchKeyTokAt at h
  rcases hd : dropPre key s with _ | r1
  · rw [hd] at h
    exact absurd h (by simp)
  · rw [hd] at h
    have h2 : (if (keyTokRun r1).isEmpty = true then (none : Option (List Char))
        else some (keyTokRun r1)) = some t := h
    by_cases he : (keyTokRun r1).isEmpty = true
    · rw [if_pos he] at h2
      exact absurd h2 (by simp)
    · rw [if_neg he] at h2
      rw [Option.some_inj] at h2
      subst h2
      simpa [List.isEmpty_iff] using he

theorem findKeyTok_ne_nil {key : List Char} :
    ∀ {s t : List Char}, findKeyTok key s = some t → t ≠ []
  | [], t, h => absurd h (by simp [findKeyTok])
  | a :: rest, t, h => by
    unfold findKeyTok at h
    rcases hm : matchKeyTokAt key (a :: rest) with _ | tok
    · rw [hm] at h
      exact findKeyTok_ne_nil h
    · rw [hm] at h
      rw [Option.some_inj] at h
      subst h
      exact matchKeyTokAt_ne_nil hm

theorem lineTok_ne_empty {key l t : String} (h : lineTok key l = some t) :
    t ≠ "" := by
  unfold lineTok at h
  split at h
  · rcases hf : findKeyTok key.data l.data with _ | tok
    · rw [hf] at h
      exact absurd h (by simp)
    · rw [hf] at h
      have h3 : some ((⟨tok⟩ : String)) = some t := h
      rw [Option.some_inj] at h3
      subst h3
      intro he
      exact findKeyTok_ne_nil hf (congrArg String.data he)
  · exact absurd h (by simp)

theorem joinSemicolons_ne_empty :
    ∀ {ls : List String}, ls ≠ [] → (∀ x ∈ ls, x ≠ "") → joinSemicolons ls ≠ ""
  | [], h, _ => absurd rfl h
  | [x], _, hx => by
    simpa [joinSemicolons] using hx x (List.mem_singleton_self x)
  | x :: y :: tl, _, _ => by
    intro hcontr
    have hlen := congrArg String.length hcontr
    rw [show joinSemicolons (x :: y :: tl) = x ++ ";" ++ joinSemicolons (y :: tl)
      from rfl] at hlen
    rw [String.length_append, String.length_append] at hlen
    have hz : ("" : String).length = 0 := rfl
    have ho : (";" : String).length = 1 := rfl
    rw [hz, ho] at hlen
    omega

/-! ## Helper lemmas: the credential prober -/

/-- The step the recorded `last_error` takes on one attempt. -/
def recordStep (net : NetC) (le : Option String) (c : Cred) : Option String :=
  match recordOf (net c COMMAND_IDENTITY) with
  | some m => some m
  | none => le

theorem lastRecorded_eq (net : NetC) (creds : List Cred) :
    lastRecorded net creds = creds.foldl (recordStep net) none := rfl

/-- When every attempt fails, the prober returns no credential, no outputs,
and the most recently recorded failure message (or the default). -/
theorem try_credentials_go_allFail (net : NetC) :
    ∀ (creds : List Cred) (le : Option String),
      (∀ c ∈ creds, identitySuccess net c = false) →
      try_credentials_go net creds le =
        (none, none, (creds.foldl (recordStep net) le).getD "Auth/connection failed")
  | [], le, _ => rfl
  | c :: rest, le, hfail => by
    have hc := hfail c (List.mem_cons_self c rest)
    have htail : ∀ x ∈ rest, identitySuccess net x = false :=
      fun x hx => hfail x (List.mem_cons_of_mem c hx)
    rcases hnet : net c COMMAND_IDENTITY with s | m | m
    · have hs : s = "" := by
        unfold identitySuccess at hc
        rw [hnet] at hc
        simpa using hc
      subst hs
      have hgo : try_credentials_go net (c :: rest) le =
          try_credentials_go net rest (some "Empty response") := by
        simp [try_credentials_go, hnet]
      have hrec : recordStep net le c = some "Empty response" := by
        simp [recordStep, recordOf, hnet]
      rw [hgo, List.foldl_cons, hrec,
        try_credentials_go_allFail net rest (some "Empty response") htail]
    · have hgo : try_credentials_go net (c :: rest) le =
          try_credentials_go net rest le := by
        simp [try_credentials_go, hnet]
      have hrec : recordStep net le c = le := by
        simp [recordStep, recordOf, hnet]
      rw [hgo, List.foldl_cons, hrec, try_credentials_go_allFail net rest le htail]
    · have hgo : try_credentials_go net (c :: rest) le =
          try_credentials_go net rest (some m) := by
        simp [try_credentials_go, hnet]
      have hrec : recordStep net le c = some m := by
        simp [recordStep, recordOf, hnet]
      rw [hgo, List.foldl_cons, hrec, try_credentials_go_allFail net rest (some m) htail]

/-- On a list of attempts that are all explicit authentication rejections,
nothing is ever recorded. -/
theorem recordFold_allAuthErr (net : NetC) :
    ∀ (creds : List Cred) (le : Option String),
      (∀ c ∈ creds, ∃ m, net c COMMAND_IDENTITY = SshResult.authErr m) →
      creds.foldl (recordStep net) le = le
  | [], _, _ => rfl
  | c :: rest, le, h => by
    rcases h c (List.mem_cons_self c rest) with ⟨m, hm⟩
    have hrec : recordStep net le c = le := by
      simp [recordStep, recordOf, hm]
    rw [List.foldl_cons, hrec,
      recordFold_allAuthErr net rest le (fun x hx => h x (List.mem_cons_of_mem c hx))]

/-- When the credentials before `b` all fail and `b` succeeds, the prober
returns `b` with its gathered outputs and an empty error string, whatever
came before and whatever follows. -/
theorem try_credentials_go_firstSuccess (net : NetC) (b : Cred)
    (hb : identitySuccess net b = true) :
    ∀ (pre : List Cred), (∀ c ∈ pre, identitySuccess net c = false) →
      ∀ (post : List Cred) (le : Option String),
        try_credentials_go net (pre ++ b :: post) le =
          (some b, some (identityText net b, resolveWireless net b), "")
  | [], _, post, le => by
    rcases hnet : net b COMMAND_IDENTITY with s | m | m
    · have hs : ¬ s = "" := by
        unfold identitySuccess at hb
        rw [hnet] at hb
        simpa using hb
      show try_credentials_go net (b :: post) le = _
      simp [try_credentials_go, identityText, hnet, hs]
    · exfalso
      unfold identitySuccess at hb
      rw [hnet] at hb
      exact Bool.false_ne_true hb
    · exfalso
      unfold identitySuccess at hb
      rw [hnet] at hb
      exact Bool.false_ne_true hb
  | c :: pre', hpre, post, le => by
    have hc := hpre c (List.mem_cons_self c pre')
    have htail : ∀ x ∈ pre', identitySuccess net x = false :=
      fun x hx => hpre x (List.mem_cons_of_mem c hx)
    show try_credentials_go net (c :: (pre' ++ b :: post)) le = _
    rcases hnet : net c COMMAND_IDENTITY with s | m | m
    · have hs : s = "" := by
        unfold identitySuccess at hc
        rw [hnet] at hc
        simpa using hc
      subst hs
      have hgo : try_credentials_go net (c :: (pre' ++ b :: post)) le =
          try_credentials_go net (pre' ++ b :: post) (some "Empty response") := by
        simp [try_credentials_go, hnet]
      rw [hgo, try_credentials_go_firstSuccess net b hb pre' htail post _]
    · have hgo : try_credentials_go net (c :: (pre' ++ b :: post)) le =
          try_credentials_go net (pre' ++ b :: post) le := by
        simp [try_credentials_go, hnet]
      rw [hgo, try_credentials_go_firstSuccess net b hb pre' htail post _]
    · have hgo : try_credentials_go net (c :: (pre' ++ b :: post)) le =
          try_credentials_go net (pre' ++ b :: post) (some m) := by
        simp [try_credentials_go, hnet]
      rw [hgo, try_credentials_go_firstSuccess net b hb pre' htail post _]

/-- With a success at `b`, the call log is oblivious to the credentials
after `b`. -/
theorem try_credentials_calls_firstSuccess (net : NetC) (b : Cred)
    (hb : identitySuccess net b = true) :
    ∀ (pre : List Cred), (∀ c ∈ pre, identitySuccess net c = false) →
      ∀ (post : List Cred),
        try_credentials_calls net (pre ++ b :: post) =
          try_credentials_calls net (pre ++ [b])
  | [], _, post => by
    rcases hnet : net b COMMAND_IDENTITY with s | m | m
    · have hs : ¬ s = "" := by
        unfold identitySuccess at hb
        rw [hnet] at hb
        simpa using hb
      show try_credentials_calls net (b :: post) = try_credentials_calls net [b]
      simp [try_credentials_calls, hnet, hs]
    · exfalso
      unfold identitySuccess at hb
      rw [hnet] at hb
      exact Bool.false_ne_true hb
    · exfalso
      unfold identitySuccess at hb
      rw [hnet] at hb
      exact Bool.false_ne_true hb
  | c :: pre', hpre, post => by
    have hc := hpre c (List.mem_cons_self c pre')
    have htail : ∀ x ∈ pre', identitySuccess net x = false :=
      fun x hx => hpre x (List.mem_cons_of_mem c hx)
    have ih := try_credentials_calls_firstSuccess net b hb pre' htail post
    show try_credentials_calls net (c :: (pre' ++ b :: post)) =
      try_credentials_calls net (c :: (pre' ++ [b]))
    rcases hnet : net c COMMAND_IDENTITY with s | m | m
    · have hs : s = "" := by
        unfold identitySuccess at hc
        rw [hnet] at hc
        simpa using hc
      subst hs
      simp only [try_credentials_calls, hnet, if_pos rfl, ih]
    · simp only [try_credentials_calls, hnet, ih]
    · simp only [try_credentials_calls, hnet, ih]

/-- The whole per-address call log is oblivious to the credentials after the
first succeeding one. -/
theorem process_calls_firstSuccess (net : NetC) (b : Cred)
    (hb : identitySuccess net b = true)
    (pre : List Cred) (hpre : ∀ c ∈ pre, identitySuccess net c = false)
    (post : List Cred) :
    process_calls net (pre ++ b :: post) = process_calls net (pre ++ [b]) := by
  unfold process_calls
  rw [try_credentials_calls_firstSuccess net b hb pre hpre post]
  unfold try_credentials
  rw [try_credentials_go_firstSuccess net b hb pre hpre post none,
    try_credentials_go_firstSuccess net b hb pre hpre [] none]

/-! ## Helper lemmas: the orchestrator -/

theorem process_ip_ip (net : NetC) (ip : String) : (process_ip net ip).ip = ip := by
  unfold process_ip process_ip_with
  rcases h : try_credentials net CREDENTIALS with ⟨_ | cred, o, e⟩ <;> simp

theorem process_ip_status (net : NetC) (ip : String) :
    (process_ip net ip).status = "OK" ∨ (process_ip net ip).status = "FAIL" := by
  unfold process_ip process_ip_with
  rcases h : try_credentials net CREDENTIALS with ⟨_ | cred, o, e⟩ <;> simp

/-! ## Spec-level restatement of `parse_identity` -/

/-- Restatement of the specified `parse_identity` behaviour: the first line
containing a `name:` marker yields its trailing text, stripped; otherwise
the `set name=` assignment pattern is sought and quotes are stripped;
otherwise the result is empty. -/
def parse_identity_specModel (raw : String) : String :=
  match (splitlines raw).find? (fun l => containsSub "name:".data l.data) with
  | some l => pyStrip ⟨(afterFirst "name:".data l.data).getD []⟩
  | none =>
    match findSetName raw.data with
    | some tok => stripQuotes (pyStrip ⟨tok⟩)
    | none => ""

theorem identityFromLines_eq_find (raw : String) :
    ∀ lines : List String,
      identityFromLines raw lines =
        match lines.find? (fun l => containsSub "name:".data l.data) with
        | some l => pyStrip ⟨(afterFirst "name:".data l.data).getD []⟩
        | none =>
          match findSetName raw.data with
          | some tok => stripQuotes (pyStrip ⟨tok⟩)
          | none => ""
  | [] => rfl
  | l :: ls => by
    by_cases h : containsSub "name:".data l.data = true
    · simp [identityFromLines, List.find?, h]
    · have hb : containsSub "name:".data l.data = false := by
        simpa using h
      simp only [identityFromLines, List.find?, hb, Bool.false_eq_true, if_false,
        Bool.cond_false]
      exact identityFromLines_eq_find raw ls

/-! ## The claims -/

/-- C8 counterexample: the claim "returns the standard output whenever it is
non-empty" fails on a whitespace-only standard output: `out = " "` is
non-empty, yet `ssh_run` returns the standard error content. -/
theorem C8_counterexample :
    ssh_run_select " " "stderr text" = "stderr text" ∧
    (" " : String) ≠ "" ∧ ("stderr text" : String) ≠ " " := by
  refine ⟨by decide, by decide, by decide⟩

/-- C8 (amended): `ssh_run` returns the standard output whenever it contains
a non-whitespace character (its `strip()` is non-empty), and otherwise
returns the standard error content. -/
theorem C8_select (out err : String) :
    ((∃ c ∈ out.data, pyIsSpace c = false) → ssh_run_select out err = out) ∧
    ((∀ c ∈ out.data, pyIsSpace c = true) → ssh_run_select out err = err) := by
  constructor
  · rintro ⟨c, hc, hcs⟩
    unfold ssh_run_select
    rw [if_pos (List.any_eq_true.mpr ⟨c, hc, by simp [hcs]⟩)]
  · intro hall
    unfold ssh_run_select
    rw [if_neg]
    intro hany
    rcases List.any_eq_true.mp hany with ⟨c, hc, hcs⟩
    rw [hall c hc] at hcs
    exact Bool.false_ne_true (by simpa using hcs)

/-- C8 witness: a stdout with content is passed through; a whitespace-only
stdout falls back to stderr. -/
theorem C8_witness :
    ssh_run_select "ok text" "e" = "ok text" ∧ ssh_run_select " \t" "e" = "e" :=
  ⟨(C8_select "ok text" "e").1 ⟨'o', by decide, by decide⟩,
   (C8_select " \t" "e").2 (by decide)⟩

/-- C6: `parse_identity` returns the stripped trailing text of the first
line containing `name:`; failing that, the `set name=` export pattern with
surrounding quotes stripped; failing both, the empty string — together with
the three specified evaluations and first-line selection. -/
theorem C6_parse_identity (raw : String) :
    parse_identity raw = parse_identity_specModel raw ∧
    parse_identity "name: Router7\n" = "Router7" ∧
    parse_identity "set name=\"Gateway-1\"" = "Gateway-1" ∧
    parse_identity "" = "" ∧
    parse_identity "x\nname: A\nname: B\n" = "A" := by
  refine ⟨?_, by decide, by decide, by decide, by decide⟩
  unfold parse_identity parse_identity_specModel
  exact identityFromLines_eq_find raw (splitlines raw)

theorem identityFromLines_no_marker (raw : String)
    (hset : findSetName raw.data = none) :
    ∀ lines : List String,
      (∀ l ∈ lines, containsSub "name:".data l.data = false) →
      identityFromLines raw lines = ""
  | [] => fun _ => by simp [identityFromLines, hset]
  | l :: ls => fun h => by
    have hl := h l (List.mem_cons_self l ls)
    simp only [identityFromLines, hl, Bool.false_eq_true, if_false]
    exact identityFromLines_no_marker raw hset ls
      (fun x hx => h x (List.mem_cons_of_mem l hx))

/-- C9: the parsers are total functions of the raw text; when the expected
markers are absent they return the empty string, respectively a pair of
empty strings — never an error. -/
theorem C9_parsers_total (raw : String) :
    ((∀ l ∈ splitlines raw, containsSub "name:".data l.data = false) →
      findSetName raw.data = none → parse_identity raw = "") ∧
    ((∀ l ∈ splitlines raw, containsSub "ssid=".data l.data = false ∧
        containsSub "radio-name=".data l.data = false) →
      parse_wireless raw = ("", "")) := by
  constructor
  · intro hlines hset
    unfold parse_identity
    exact identityFromLines_no_marker raw hset (splitlines raw) hlines
  · intro h
    rw [parse_wireless_eq]
    have hs : ssidTokens raw = [] := by
      rw [ssidTokens, List.filterMap_eq_nil]
      intro l hl
      simp [lineTok, (h l hl).1]
    have hr : radioTokens raw = [] := by
      rw [radioTokens, List.filterMap_eq_nil]
      intro l hl
      simp [lineTok, (h l hl).2]
    rw [hs, hr]
    rfl

/-- C9 witness: marker-free text parses to empty results. -/
theorem C9_witness :
    parse_identity "plain text, no markers here" = "" ∧
    parse_wireless "plain text, no markers here" = ("", "") :=
  ⟨(C9_parsers_total "plain text, no markers here").1 (by decide) (by decide),
   (C9_parsers_total "plain text, no markers here").2 (by decide)⟩

/-- C10: every record `process_ip` builds has status `OK` or `FAIL`;
a `FAIL` record has empty credential, identity, ssid and radio-name fields;
an `OK` record has an empty error field and carries the matched credential
pair. -/
theorem C10_record_invariants (net : NetC) (ip : String) :
    ((process_ip net ip).status = "OK" ∨ (process_ip net ip).status = "FAIL") ∧
    ((process_ip net ip).status = "FAIL" →
      (process_ip net ip).username = "" ∧ (process_ip net ip).password = "" ∧
      (process_ip net ip).system_identity = "" ∧ (process_ip net ip).ssids = "" ∧
      (process_ip net ip).radio_names = "") ∧
    (∀ (cred : Cred) (o : Option (String × String)) (e : String),
      try_credentials net CREDENTIALS = (some cred, o, e) →
      (process_ip net ip).status = "OK" ∧ (process_ip net ip).error = "" ∧
      (process_ip net ip).username = cred.1 ∧
      (process_ip net ip).password = cred.2) := by
  unfold process_ip process_ip_with
  rcases h : try_credentials net CREDENTIALS with ⟨_ | cred, o, e⟩
  · refine ⟨by simp, by simp, ?_⟩
    intro cred' o' e' h'
    exact absurd (congrArg Prod.fst h') (by simp)
  · refine ⟨by simp, ?_, ?_⟩
    · intro habs
      simp only at habs
      exact absurd habs (by decide)
    · intro cred' o' e' h'
      have hc : cred = cred' := by
        have := congrArg Prod.fst h'
        simpa using this
      subst hc
      simp

/-- C10 witness: an address where every attempt fails yields the all-empty
`FAIL` record. -/
theorem C10_witness :
    (process_ip (fun _ _ => SshResult.err "no route to host") "10.0.0.1").username = "" ∧
    (process_ip (fun _ _ => SshResult.err "no route to host") "10.0.0.1").password = "" ∧
    (process_ip (fun _ _ => SshResult.err "no route to host") "10.0.0.1").system_identity = "" ∧
    (process_ip (fun _ _ => SshResult.err "no route to host") "10.0.0.1").ssids = "" ∧
    (process_ip (fun _ _ => SshResult.err "no route to host") "10.0.0.1").radio_names = "" :=
  (C10_record_invariants (fun _ _ => SshResult.err "no route to host") "10.0.0.1").2.1
    (by decide)

theorem runAll_filter_count (net : String → NetC) (a : String) :
    ∀ ips : List String,
      ((runAll net ips).filter (fun r => r.ip == a)).length =
        (ips.filter (fun i => i == a)).length
  | [] => rfl
  | i :: ips => by
    show ((process_ip (net i) i :: runAll net ips).filter (fun r => r.ip == a)).length = _
    rw [List.filter_cons, List.filter_cons]
    have hip : ((process_ip (net i) i).ip == a) = (i == a) := by
      rw [process_ip_ip]
    rw [hip]
    by_cases h : (i == a) = true
    · rw [if_pos h, if_pos h]
      simp only [List.length_cons]
      rw [runAll_filter_count net a ips]
    · rw [if_neg h, if_neg h]
      exact runAll_filter_count net a ips

/-- C4: the pipeline yields exactly one record per input address — the
records' addresses are the input addresses in order, so each address
occurs as often among the records as in the input (once, when the loaded
input is duplicate-free) — and every record's status is `OK` or `FAIL`. -/
theorem C4_one_record_per_address (net : String → NetC) (ips : List String) :
    (runAll net ips).map (fun r => r.ip) = ips ∧
    (runAll net ips).length = ips.length ∧
    (∀ a : String, ((runAll net ips).filter (fun r => r.ip == a)).length =
      (ips.filter (fun i => i == a)).length) ∧
    (runAll net ips).all (fun r => r.status == "OK" || r.status == "FAIL") = true := by
  refine ⟨?_, ?_, fun a => runAll_filter_count net a ips, ?_⟩
  · unfold runAll
    rw [List.map_map]
    have : ((fun r => DeviceRecord.ip r) ∘ fun ip => process_ip (net ip) ip) = id :=
      funext fun ip => process_ip_ip (net ip) ip
    rw [this, List.map_id]
  · unfold runAll
    exact List.length_map ips _
  · rw [List.all_eq_true]
    intro r hr
    rcases List.mem_map.mp hr with ⟨i, _, rfl⟩
    rcases process_ip_status (net i) i with h | h <;> simp [h]

/-- Oracle whose every attempt is an explicit authentication rejection,
with a distinct per-credential message. -/
def netAuthRej : NetC := fun c _ => SshResult.authErr ("rejected " ++ c.2)

/-- C1 counterexample: with two credentials both explicitly rejected, the
returned error is the generic `'Auth/connection failed'` sentinel, not the
final credential's failure reason (`"rejected b"`): rejection messages are
never recorded, not even the last one's. -/
theorem C1_counterexample :
    try_credentials netAuthRej [("admin", "a"), ("admin", "b")] =
      (none, none, "Auth/connection failed") ∧
    ("Auth/connection failed" : String) ≠ "rejected b" := by
  refine ⟨by decide, by decide⟩

/-- C1 (amended): if every credential yields an explicit authentication
rejection, `try_credentials` returns the unauthenticated triple with the
default sentinel `'Auth/connection failed'`; rejections are never recorded
as the terminal error, the last credential's included. -/
theorem C1_allAuthErr_sentinel (net : NetC) (creds : List Cred)
    (h : ∀ c ∈ creds, ∃ m, net c COMMAND_IDENTITY = SshResult.authErr m) :
    try_credentials net creds = (none, none, "Auth/connection failed") := by
  have hfail : ∀ c ∈ creds, identitySuccess net c = false := by
    intro c hc
    rcases h c hc with ⟨m, hm⟩
    simp [identitySuccess, hm]
  unfold try_credentials
  rw [try_credentials_go_allFail net creds none hfail,
    recordFold_allAuthErr net creds none h]
  rfl

/-- C1 witness. -/
theorem C1_witness :
    try_credentials netAuthRej [("admin", "a"), ("admin", "b")] =
      (none, none, "Auth/connection failed") :=
  C1_allAuthErr_sentinel netAuthRej [("admin", "a"), ("admin", "b")]
    (fun c _ => ⟨"rejected " ++ c.2, rfl⟩)

/-- Oracle on which every identity probe returns empty text. -/
def netEmptyId : NetC := fun _ _ => SshResult.ok ""

/-- C2 counterexample: when every attempt returns only empty identity text,
the last recorded error is `'Empty response'` (the message of the
`RuntimeError` raised on an empty response and caught by the generic
handler), not the generic sentinel — neither the spec's
`'authentication/connection failed'` wording nor the code's
`'Auth/connection failed'` literal. -/
theorem C2_counterexample :
    try_credentials netEmptyId [("admin", "a"), ("admin", "b")] =
      (none, none, "Empty response") ∧
    ("Empty response" : String) ≠ "authentication/connection failed" ∧
    ("Empty response" : String) ≠ "Auth/connection failed" := by
  refine ⟨by decide, by decide, by decide⟩

/-- C2 (amended): on exhaustion the returned error is the most recently
recorded failure message, defaulting to `'Auth/connection failed'` only
when no attempt ever recorded one — i.e. when every attempt was an explicit
authentication rejection; an attempt with empty identity text records
`'Empty response'`. -/
theorem C2_lastRecorded (net : NetC) (creds : List Cred)
    (h : ∀ c ∈ creds, identitySuccess net c = false) :
    try_credentials net creds =
      (none, none, (lastRecorded net creds).getD "Auth/connection failed") := by
  unfold try_credentials
  rw [try_credentials_go_allFail net creds none h, lastRecorded_eq]

/-- Oracle with one transport failure, one rejection, and empty identity
answers for the remaining credentials. -/
def netMixed : NetC := fun c _ =>
  if c = ("admin", "kol5ara") then SshResult.err "connection timed out"
  else if c = ("admin", "Admin") then SshResult.authErr "denied"
  else SshResult.ok ""

/-- C2 witness. -/
theorem C2_witness :
    try_credentials netMixed CREDENTIALS =
      (none, none, (lastRecorded netMixed CREDENTIALS).getD "Auth/connection failed") :=
  C2_lastRecorded netMixed CREDENTIALS (by decide)

/-! ## Credential membership of the call log -/

theorem wirelessCalls_cred (net : NetC) (c : Cred) :
    ∀ call ∈ wirelessCalls net c, call.1 = c := by
  intro call hcall
  unfold wirelessCalls at hcall
  rcases List.mem_cons.mp hcall with rfl | h2
  · rfl
  · split at h2
    · rw [List.mem_singleton.mp h2]
    · exact absurd h2 (by simp)

theorem try_credentials_calls_cred_mem (net : NetC) :
    ∀ (creds : List Cred), ∀ call ∈ try_credentials_calls net creds, call.1 ∈ creds
  | [], call, hcall => absurd hcall (by simp [try_credentials_calls])
  | c :: rest, call, hcall => by
    unfold try_credentials_calls at hcall
    rcases List.mem_cons.mp hcall with rfl | h2
    · exact List.mem_cons_self c rest
    · rcases hnet : net c COMMAND_IDENTITY with s | m | m
      · rw [hnet] at h2
        have h3 : call ∈ (if s = "" then try_credentials_calls net rest
            else wirelessCalls net c) := h2
        by_cases hs : s = ""
        · rw [if_pos hs] at h3
          exact List.mem_cons_of_mem c (try_credentials_calls_cred_mem net rest call h3)
        · rw [if_neg hs] at h3
          rw [wirelessCalls_cred net c call h3]
          exact List.mem_cons_self c rest
      · rw [hnet] at h2
        have h3 : call ∈ try_credentials_calls net rest := h2
        exact List.mem_cons_of_mem c (try_credentials_calls_cred_mem net rest call h3)
      · rw [hnet] at h2
        have h3 : call ∈ try_credentials_calls net rest := h2
        exact List.mem_cons_of_mem c (try_credentials_calls_cred_mem net rest call h3)

theorem try_credentials_go_some_mem (net : NetC) :
    ∀ (creds : List Cred) (le : Option String) (cred : Cred)
      (o : Option (String × String)) (e : String),
      try_credentials_go net creds le = (some cred, o, e) → cred ∈ creds
  | [], le, cred, o, e, h => by
    unfold try_credentials_go at h
    exact absurd (congrArg Prod.fst h) (by simp)
  | c :: rest, le, cred, o, e, h => by
    unfold try_credentials_go at h
    rcases hnet : net c COMMAND_IDENTITY with s | m | m
    · rw [hnet] at h
      have h3 : (if s = "" then try_credentials_go net rest (some "Empty response")
          else (some c, some (s, resolveWireless net c), "")) = (some cred, o, e) := h
      by_cases hs : s = ""
      · rw [if_pos hs] at h3
        exact List.mem_cons_of_mem c (try_credentials_go_some_mem net rest _ cred o e h3)
      · rw [if_neg hs] at h3
        have : some c = some cred := congrArg Prod.fst h3
        rw [Option.some_inj] at this
        rw [← this]
        exact List.mem_cons_self c rest
    · rw [hnet] at h
      have h3 : try_credentials_go net rest le = (some cred, o, e) := h
      exact List.mem_cons_of_mem c (try_credentials_go_some_mem net rest _ cred o e h3)
    · rw [hnet] at h
      have h3 : try_credentials_go net rest (some m) = (some cred, o, e) := h
      exact List.mem_cons_of_mem c (try_credentials_go_some_mem net rest _ cred o e h3)

theorem process_calls_cred_mem (net : NetC) (creds : List Cred) :
    ∀ call ∈ process_calls net creds, call.1 ∈ creds := by
  intro call hcall
  unfold process_calls at hcall
  rcases List.mem_append.mp hcall with h1 | h2
  · exact try_credentials_calls_cred_mem net creds call h1
  · rcases hres : try_credentials net creds with ⟨_ | cred, o, e⟩
    · rw [hres] at h2
      exact absurd h2 (by simp)
    · rw [hres] at h2
      have h3 : call ∈ (if (Option.map Prod.snd o).getD "" = ""
          then [(cred, COMMAND_EXPORT)] else []) := h2
      by_cases hw : (Option.map Prod.snd o).getD "" = ""
      · rw [if_pos hw] at h3
        rw [List.mem_singleton.mp h3]
        exact try_credentials_go_some_mem net creds none cred o e hres
      · rw [if_neg hw] at h3
        exact absurd h3 (by simp)

/-- C3: once a credential `b` succeeds after a prefix of failing
credentials, the per-address processing is oblivious to every later
credential: its session-client call log is exactly the log for the list
truncated after `b`, and every call it issues uses a credential from
`pre ++ [b]`. -/
theorem C3_short_circuit (net : NetC) (b : Cred) (pre post : List Cred)
    (hpre : ∀ c ∈ pre, identitySuccess net c = false)
    (hb : identitySuccess net b = true) :
    process_calls net (pre ++ b :: post) = process_calls net (pre ++ [b]) ∧
    ∀ call ∈ process_calls net (pre ++ b :: post), call.1 ∈ pre ++ [b] := by
  have heq := process_calls_firstSuccess net b hb pre hpre post
  refine ⟨heq, ?_⟩
  intro call hcall
  rw [heq] at hcall
  exact process_calls_cred_mem net (pre ++ [b]) call hcall

/-- Oracle where only `("admin", "Admin")` authenticates; every other
credential hits a transport failure. -/
def netSecondCred : NetC := fun c cmd =>
  if c = ("admin", "Admin") then
    (if cmd = COMMAND_IDENTITY then SshResult.ok "name: R" else SshResult.ok "ssid=\"S\"")
  else SshResult.err "connection refused"

/-- C3 witness: with the first credential failing and the second
succeeding, the call log equals the log without the third credential. -/
theorem C3_witness :
    process_calls netSecondCred
        ([("admin", "kol5ara")] ++ ("admin", "Admin") :: [("admin", "ADmin")]) =
      process_calls netSecondCred ([("admin", "kol5ara")] ++ [("admin", "Admin")]) :=
  (C3_short_circuit netSecondCred ("admin", "Admin") [("admin", "kol5ara")]
    [("admin", "ADmin")] (by decide) (by decide)).1

/-- C5: each component of `parse_wireless` is the deduplicated,
lexicographically sorted, `';'`-joined set of matched tokens; the output
only depends on the set of tokens matched, not on their order or
multiplicity; the specified evaluation holds. -/
theorem C5_sorted_dedup_join (raw raw2 : String) :
    (parse_wireless raw).1 = joinSemicolons (sortStr (ssidTokens raw).dedup) ∧
    (parse_wireless raw).2 = joinSemicolons (sortStr (radioTokens raw).dedup) ∧
    ((∀ t ∈ ssidTokens raw, t ∈ ssidTokens raw2) →
      (∀ t ∈ ssidTokens raw2, t ∈ ssidTokens raw) →
      (parse_wireless raw).1 = (parse_wireless raw2).1) ∧
    ((∀ t ∈ radioTokens raw, t ∈ radioTokens raw2) →
      (∀ t ∈ radioTokens raw2, t ∈ radioTokens raw) →
      (parse_wireless raw).2 = (parse_wireless raw2).2) ∧
    (parse_wireless "ssid=\"Net-A\"\nssid=\"Net-B\"\nssid=\"Net-A\"\nssid=\"Net-B\"").1 =
      "Net-A;Net-B" := by
  refine ⟨?_, ?_, ?_, ?_, by decide⟩
  · rw [parse_wireless_eq]
  · rw [parse_wireless_eq]
  · intro h12 h21
    rw [parse_wireless_eq, parse_wireless_eq]
    simp only
    congr 1
    apply sortStr_setext (List.nodup_dedup _) (List.nodup_dedup _)
    intro a
    rw [List.mem_dedup, List.mem_dedup]
    exact ⟨fun ha => h12 a ha, fun ha => h21 a ha⟩
  · intro h12 h21
    rw [parse_wireless_eq, parse_wireless_eq]
    simp only
    congr 1
    apply sortStr_setext (List.nodup_dedup _) (List.nodup_dedup _)
    intro a
    rw [List.mem_dedup, List.mem_dedup]
    exact ⟨fun ha => h12 a ha, fun ha => h21 a ha⟩

/-- C5 witness: reordered and re-duplicated input lines produce the same
serialized ssid set. -/
theorem C5_witness :
    (parse_wireless "ssid=\"Net-B\"\nssid=\"Net-A\"").1 =
      (parse_wireless "ssid=\"Net-A\"\nssid=\"Net-B\"\nssid=\"Net-A\"").1 :=
  (C5_sorted_dedup_join "ssid=\"Net-B\"\nssid=\"Net-A\""
    "ssid=\"Net-A\"\nssid=\"Net-B\"\nssid=\"Net-A\"").2.2.1 (by decide) (by decide)

/-! ## C7: the export fallback -/

theorem lineTok_contains {key l t : String} (h : lineTok key l = some t) :
    containsSub key.data l.data = true := by
  unfold lineTok at h
  by_cases hc : containsSub key.data l.data = true
  · exact hc
  · rw [if_neg hc] at h
    exact absurd h (by simp)

theorem containsSub_ne_nil {pat s : List Char} (hp : pat ≠ [])
    (h : containsSub pat s = true) : s ≠ [] := by
  intro hs
  subst hs
  unfold containsSub afterFirst at h
  rw [if_neg (by simpa [List.isEmpty_iff] using hp)] at h
  simp at h

theorem wirelessCalls_cmd (net : NetC) (c : Cred) :
    ∀ call ∈ wirelessCalls net c,
      call.2 = COMMAND_WIRELESS ∨ call.2 = COMMAND_WIRELESS_ALT := by
  intro call hcall
  unfold wirelessCalls at hcall
  rcases List.mem_cons.mp hcall with rfl | h2
  · exact Or.inl rfl
  · split at h2
    · rw [List.mem_singleton.mp h2]
      exact Or.inr rfl
    · exact absurd h2 (by simp)

theorem try_credentials_calls_cmd (net : NetC) :
    ∀ (creds : List Cred), ∀ call ∈ try_credentials_calls net creds,
      call.2 = COMMAND_IDENTITY ∨ call.2 = COMMAND_WIRELESS ∨
        call.2 = COMMAND_WIRELESS_ALT
  | [], call, hcall => absurd hcall (by simp [try_credentials_calls])
  | c :: rest, call, hcall => by
    unfold try_credentials_calls at hcall
    rcases List.mem_cons.mp hcall with rfl | h2
    · exact Or.inl rfl
    · rcases hnet : net c COMMAND_IDENTITY with s | m | m
      · rw [hnet] at h2
        have h3 : call ∈ (if s = "" then try_credentials_calls net rest
            else wirelessCalls net c) := h2
        by_cases hs : s = ""
        · rw [if_pos hs] at h3
          exact try_credentials_calls_cmd net rest call h3
        · rw [if_neg hs] at h3
          exact Or.inr (wirelessCalls_cmd net c call h3)
      · rw [hnet] at h2
        have h3 : call ∈ try_credentials_calls net rest := h2
        exact try_credentials_calls_cmd net rest call h3
      · rw [hnet] at h2
        have h3 : call ∈ try_credentials_calls net rest := h2
        exact try_credentials_calls_cmd net rest call h3

/-- C7: when the probe authenticates with empty resolved wireless text and
the export command returns text with a line holding a `radio-name=` value,
`process_ip` performs the single export fallback — one export call appended
to the probe's calls, which themselves never run the export command — and
the resulting record's radio-name field is non-empty. -/
theorem C7_export_fallback (net : NetC) (ip : String) (cred : Cred)
    (idRaw e l : String)
    (hprobe : try_credentials net CREDENTIALS = (some cred, some (idRaw, ""), ""))
    (hexp : net cred COMMAND_EXPORT = SshResult.ok e)
    (hl : l ∈ splitlines e)
    (htok : (lineTok "radio-name=" l).isSome = true) :
    (process_ip net ip).radio_names ≠ "" ∧
    process_calls net CREDENTIALS =
      try_credentials_calls net CREDENTIALS ++ [(cred, COMMAND_EXPORT)] ∧
    (∀ call ∈ try_credentials_calls net CREDENTIALS, call.2 ≠ COMMAND_EXPORT) := by
  rcases Option.isSome_iff_exists.mp htok with ⟨t, ht⟩
  have hkeep : (containsSub "ssid=".data l.data ||
      containsSub "radio-name=".data l.data) = true := by
    rw [lineTok_contains ht]
    simp
  have he : e ≠ "" := by
    intro h0
    subst h0
    simp [splitlines, splitlinesGo] at hl
  refine ⟨?_, ?_, ?_⟩
  · have hradio : (process_ip net ip).radio_names =
        (parse_wireless ((splitlines e).foldl exportFilterStep "")).2 := by
      simp [process_ip, process_ip_with, hprobe, hexp, he]
    set kept := (splitlines e).filter (fun x =>
      containsSub "ssid=".data x.data || containsSub "radio-name=".data x.data) with hkept
    have hW : (splitlines e).foldl exportFilterStep "" = nlConcat kept := by
      rw [exportFilter_fold]
      rfl
    have hlk : l ∈ kept := List.mem_filter.mpr ⟨hl, hkeep⟩
    have hkne : kept ≠ [] := List.ne_nil_of_mem hlk
    have hgood : ∀ x ∈ kept, x ≠ "" ∧ ∀ c ∈ x.data, isLineBreak c = false := by
      intro x hx
      have hxe : x ∈ splitlines e := (List.mem_filter.mp hx).1
      have hxk := (List.mem_filter.mp hx).2
      constructor
      · intro hx0
        subst hx0
        rcases Bool.or_eq_true_iff.mp hxk with hc | hc
        · exact containsSub_ne_nil (by decide) hc rfl
        · exact containsSub_ne_nil (by decide) hc rfl
      · exact splitlines_breakFree hxe
    have hsplit : splitlines (nlConcat kept) = "" :: kept :=
      splitlines_nlConcat kept hkne hgood
    have htmem : t ∈ radioTokens (nlConcat kept) := by
      unfold radioTokens
      rw [hsplit]
      exact List.mem_filterMap.mpr ⟨l, List.mem_cons_of_mem _ hlk, ht⟩
    have hsorted_mem : t ∈ sortStr (radioTokens (nlConcat kept)).dedup :=
      sortStr_mem.mpr (List.mem_dedup.mpr htmem)
    have hne : sortStr (radioTokens (nlConcat kept)).dedup ≠ [] :=
      List.ne_nil_of_mem hsorted_mem
    have hall : ∀ x ∈ sortStr (radioTokens (nlConcat kept)).dedup, x ≠ "" := by
      intro x hx
      have hx2 : x ∈ radioTokens (nlConcat kept) :=
        List.mem_dedup.mp (sortStr_mem.mp hx)
      rcases List.mem_filterMap.mp hx2 with ⟨l', _, hl'⟩
      exact lineTok_ne_empty hl'
    rw [hradio, hW, parse_wireless_eq]
    exact joinSemicolons_ne_empty hne hall
  · unfold process_calls
    rw [hprobe]
    rfl
  · intro call hcall
    rcases try_credentials_calls_cmd net CREDENTIALS call hcall with h | h | h <;>
      rw [h] <;> decide

/-- Oracle that authenticates at once, answers both wireless commands with
empty text, and serves an export containing a radio-name assignment. -/
def netExportOnly : NetC := fun _ cmd =>
  if cmd = COMMAND_IDENTITY then SshResult.ok "name: R7"
  else if cmd = COMMAND_EXPORT then
    SshResult.ok "set wlan1 radio-name=\"RN-1\"\nset irrelevant"
  else SshResult.ok ""

/-- C7 witness: on `netExportOnly` the record's radio-name field is
non-empty. -/
theorem C7_witness :
    (process_ip netExportOnly "10.1.1.1").radio_names ≠ "" :=
  (C7_export_fallback netExportOnly "10.1.1.1" ("admin", "kol5ara") "name: R7"
    "set wlan1 radio-name=\"RN-1\"\nset irrelevant"
    "set wlan1 radio-name=\"RN-1\"" (by decide) (by decide) (by decide)
    (by decide)).1

end ISPRecon
